import Mathlib

/-!
Verification of the forensic scoring engine in `src/aegis_final.py`
(Aegis-Detector).  The Python source is shallowly embedded: pure helper
functions become Lean functions, the Dash callback `update_system` becomes a
function from the tick number and the stored state to a record of its
outputs, and the `IsolationForest` model (external library code) is a
function parameter `fit_predict` whose only assumed property is stated
explicitly where needed.  Monetary amounts are exact decimals `num / 10^exp`.
-/

namespace Aegis

/-- A decimal monetary amount: the value `num / 10 ^ exp`.  This models the
`Amount` column: the Python code renders an amount as a decimal string, which
for `num / 10 ^ exp` is the digits of `|num|` with a point `exp` places from
the right (integer part shown as `0` when empty). -/
structure Amount where
  num : Int
  exp : Nat
deriving DecidableEq

/-- The decimal digit characters of `n`, most significant first (empty for
`0`), as they appear in the rendered string. -/
def natChars (n : Nat) : List Char :=
  ((Nat.digits 10 n).reverse).map Nat.digitChar

/-- The integer part of the rendered string: Python prints `0` before the
point when the integer part is zero (`str(0.056) = "0.056"`). -/
def intChars (n : Nat) : List Char :=
  if n = 0 then ['0'] else natChars n

/-- The fractional part of the rendered string: the digits of `fr` padded on
the left with zeros to `e` characters (`str(0.056)` has fractional part
`056`). -/
def fracChars (fr e : Nat) : List Char :=
  List.replicate (e - (Nat.digits 10 fr).length) '0' ++ natChars fr

/-- `str(abs(float(x)))` for the amount `a`: integer part, decimal point,
fractional part, no sign. -/
def Amount.pyStr (a : Amount) : List Char :=
  intChars (a.num.natAbs / 10 ^ a.exp) ++ '.' :: fracChars (a.num.natAbs % 10 ^ a.exp) a.exp

/-- `.replace('.', '').lstrip('0')` from line 56 of `aegis_final.py`. -/
def stripDigits (s : List Char) : List Char :=
  (s.filter (fun c => c ≠ '.')).dropWhile (fun c => c = '0')

/-- Line 56 of `aegis_final.py`:
`int(str(abs(float(x))).replace('.', '').lstrip('0')[0]) if abs(float(x)) > 0 else 0`.
Indexing `[0]` is total here because under the guard the stripped string is
nonempty (proved below); the `[]` branch is unreachable. -/
def leading_digit (a : Amount) : Nat :=
  if 0 < a.num.natAbs then
    match stripDigits a.pyStr with
    | c :: _ => c.toNat - '0'.toNat
    | [] => 0
  else 0

/-- The algorithm exactly as §4.2 of the spec words it: take the absolute
value, format as a decimal string without a sign, remove the decimal point,
strip leading zero characters; if the resulting string is empty return 0,
otherwise the integer value of the first remaining character. -/
def leading_digit_spec (a : Amount) : Nat :=
  match stripDigits a.pyStr with
  | [] => 0
  | c :: _ => c.toNat - '0'.toNat

/-- The rational value of an amount. -/
def Amount.val (a : Amount) : ℚ :=
  (a.num : ℚ) / (10 : ℚ) ^ a.exp

lemma mem_natChars {c : Char} {n : Nat} (hc : c ∈ natChars n) :
    ∃ d, d < 10 ∧ c = Nat.digitChar d := by
  simp only [natChars, List.mem_map, List.mem_reverse] at hc
  obtain ⟨d, hd, rfl⟩ := hc
  exact ⟨d, Nat.digits_lt_base (by norm_num) hd, rfl⟩

lemma digitChar_ne_dot {d : Nat} (hd : d < 10) : Nat.digitChar d ≠ '.' := by
  interval_cases d <;> decide

lemma digitChar_toNat {d : Nat} (hd : d < 10) : (Nat.digitChar d).toNat - '0'.toNat = d := by
  interval_cases d <;> decide

lemma digitChar_eq_zero_iff {d : Nat} (hd : d < 10) : Nat.digitChar d = '0' ↔ d = 0 := by
  interval_cases d <;> decide

lemma mem_intChars {c : Char} {n : Nat} (hc : c ∈ intChars n) :
    ∃ d, d < 10 ∧ c = Nat.digitChar d := by
  unfold intChars at hc
  split at hc
  · simp at hc; exact ⟨0, by norm_num, by simp [hc]; rfl⟩
  · exact mem_natChars hc

lemma mem_fracChars {c : Char} {fr e : Nat} (hc : c ∈ fracChars fr e) :
    ∃ d, d < 10 ∧ c = Nat.digitChar d := by
  unfold fracChars at hc
  rcases List.mem_append.mp hc with h | h
  · have := List.eq_of_mem_replicate h
    exact ⟨0, by norm_num, by simp [this]; rfl⟩
  · exact mem_natChars h

/-- Removing the decimal point from the rendered string leaves exactly the
integer-part characters followed by the fractional-part characters. -/
lemma filter_pyStr (a : Amount) :
    a.pyStr.filter (fun c => c ≠ '.') =
      intChars (a.num.natAbs / 10 ^ a.exp) ++ fracChars (a.num.natAbs % 10 ^ a.exp) a.exp := by
  unfold Amount.pyStr
  rw [List.filter_append, List.filter_cons]
  have hdot : (fun c => decide (c ≠ '.')) '.' = false := by decide
  simp only [hdot, if_false, Bool.false_eq_true]
  congr 1
  · exact List.filter_eq_self.mpr fun c hc => by
      obtain ⟨d, hd, rfl⟩ := mem_intChars hc
      simpa using digitChar_ne_dot hd
  · exact List.filter_eq_self.mpr fun c hc => by
      obtain ⟨d, hd, rfl⟩ := mem_fracChars hc
      simpa using digitChar_ne_dot hd

lemma dropWhile_append_of_all {p : Char → Bool} {l1 l2 : List Char}
    (h : ∀ x ∈ l1, p x) : (l1 ++ l2).dropWhile p = l2.dropWhile p := by
  induction l1 with
  | nil => rfl
  | cons x t ih =>
      rw [List.cons_append, List.dropWhile_cons, if_pos (h x (by simp))]
      exact ih fun y hy => h y (by simp [hy])

/-- The decimal digits of a nonzero natural start with a nonzero digit. -/
lemma natChars_of_ne_zero {n : Nat} (hn : n ≠ 0) :
    ∃ d t, d < 10 ∧ d ≠ 0 ∧ natChars n = Nat.digitChar d :: t := by
  have hne : Nat.digits 10 n ≠ [] := Nat.digits_ne_nil_iff_ne_zero.mpr hn
  obtain ⟨d, l, hdl⟩ : ∃ d l, (Nat.digits 10 n).reverse = d :: l := by
    cases hrev : (Nat.digits 10 n).reverse with
    | nil => exact absurd (by simpa using congrArg List.reverse hrev) hne
    | cons d l => exact ⟨d, l, rfl⟩
  have hdmem : d ∈ Nat.digits 10 n := by
    have : d ∈ (Nat.digits 10 n).reverse := by simp [hdl]
    simpa using this
  have hd10 : d < 10 := Nat.digits_lt_base (by norm_num) hdmem
  have hd0 : d ≠ 0 := by
    have hlast := Nat.getLast_digit_ne_zero 10 hn
    have h1 : (Nat.digits 10 n).getLast? = some d := by
      rw [List.getLast?_eq_head?_reverse, hdl]; rfl
    rw [List.getLast?_eq_getLast _ hne] at h1
    rw [Option.some_inj] at h1
    rwa [h1] at hlast
  exact ⟨d, l.map Nat.digitChar, hd10, hd0, by simp [natChars, hdl]⟩

/-- A zero-magnitude amount strips to the empty string. -/
lemma stripDigits_pyStr_of_zero {a : Amount} (ha : a.num.natAbs = 0) :
    stripDigits a.pyStr = [] := by
  unfold stripDigits
  rw [filter_pyStr, ha]
  apply List.dropWhile_eq_nil_iff.mpr
  intro x hx
  rcases List.mem_append.mp hx with h | h
  · rw [Nat.zero_div, show intChars 0 = ['0'] from rfl] at h
    simp only [List.mem_singleton] at h
    simp [h]
  · rw [Nat.zero_mod] at h
    unfold fracChars natChars at h
    simp only [Nat.digits_zero, List.reverse_nil, List.map_nil, List.append_nil] at h
    have := List.eq_of_mem_replicate h
    simp [this]

/-- A nonzero-magnitude amount strips to a string headed by a nonzero digit. -/
lemma stripDigits_pyStr_of_ne_zero {a : Amount} (ha : a.num.natAbs ≠ 0) :
    ∃ d t, d < 10 ∧ d ≠ 0 ∧ stripDigits a.pyStr = Nat.digitChar d :: t := by
  unfold stripDigits
  rw [filter_pyStr]
  by_cases hip : a.num.natAbs / 10 ^ a.exp = 0
  · have hfr : a.num.natAbs % 10 ^ a.exp ≠ 0 := by
      have hdm := Nat.div_add_mod a.num.natAbs (10 ^ a.exp)
      rw [hip, Nat.mul_zero, Nat.zero_add] at hdm
      intro h0
      rw [hdm] at h0
      exact ha h0
    obtain ⟨d, t, hd10, hd0, ht⟩ := natChars_of_ne_zero hfr
    refine ⟨d, t, hd10, hd0, ?_⟩
    rw [hip]
    show ((intChars 0 ++ fracChars _ _).dropWhile _) = _
    unfold fracChars
    rw [ht, show intChars 0 = ['0'] from rfl]
    rw [show (['0'] ++ (List.replicate (a.exp - (Nat.digits 10 (a.num.natAbs % 10 ^ a.exp)).length) '0' ++ Nat.digitChar d :: t)) = ('0' :: List.replicate (a.exp - (Nat.digits 10 (a.num.natAbs % 10 ^ a.exp)).length) '0') ++ (Nat.digitChar d :: t) by simp]
    rw [dropWhile_append_of_all (by
      intro x hx
      rcases List.mem_cons.mp hx with h | h
      · simp [h]
      · simp [List.eq_of_mem_replicate h])]
    rw [List.dropWhile_cons, if_neg]
    simp only [decide_eq_true_eq]
    exact fun h => hd0 ((digitChar_eq_zero_iff hd10).mp h)
  · obtain ⟨d, t, hd10, hd0, ht⟩ := natChars_of_ne_zero hip
    refine ⟨d, t ++ fracChars (a.num.natAbs % 10 ^ a.exp) a.exp, hd10, hd0, ?_⟩
    rw [show intChars (a.num.natAbs / 10 ^ a.exp) = natChars (a.num.natAbs / 10 ^ a.exp) by
      unfold intChars; rw [if_neg hip]]
    rw [ht, List.cons_append, List.dropWhile_cons, if_neg]
    simp only [decide_eq_true_eq]
    exact fun h => hd0 ((digitChar_eq_zero_iff hd10).mp h)

lemma leading_digit_of_ne_zero {a : Amount} (h : a.num.natAbs ≠ 0) :
    ∃ d, d < 10 ∧ d ≠ 0 ∧ leading_digit a = d := by
  obtain ⟨d, t, hd10, hd0, ht⟩ := stripDigits_pyStr_of_ne_zero h
  refine ⟨d, hd10, hd0, ?_⟩
  unfold leading_digit
  rw [if_pos (Nat.pos_of_ne_zero h), ht]
  exact digitChar_toNat hd10

lemma leading_digit_eq_spec (a : Amount) : leading_digit a = leading_digit_spec a := by
  by_cases h : a.num.natAbs = 0
  · unfold leading_digit leading_digit_spec
    rw [stripDigits_pyStr_of_zero h, if_neg (by omega)]
  · obtain ⟨d, t, hd10, hd0, ht⟩ := stripDigits_pyStr_of_ne_zero h
    unfold leading_digit leading_digit_spec
    rw [ht, if_pos (Nat.pos_of_ne_zero h)]

lemma leading_digit_le_nine (a : Amount) : leading_digit a ≤ 9 := by
  by_cases h : a.num.natAbs = 0
  · unfold leading_digit
    rw [if_neg (by omega)]
    omega
  · obtain ⟨d, hd10, _, hv⟩ := leading_digit_of_ne_zero h
    omega

lemma leading_digit_eq_zero_iff (a : Amount) : leading_digit a = 0 ↔ a.num = 0 := by
  constructor
  · intro hv
    by_contra hne
    have h : a.num.natAbs ≠ 0 := fun h0 => hne (Int.natAbs_eq_zero.mp h0)
    obtain ⟨d, _, hd0, hd⟩ := leading_digit_of_ne_zero h
    exact hd0 (by omega)
  · intro h0
    unfold leading_digit
    rw [if_neg (by simp [h0])]

/-- C1: the leading digit assigned at annotation follows the spec's string
algorithm (absolute value, decimal rendering, point removal, zero stripping,
first character or 0), agrees with the four worked examples, and lies in
`{0..9}` with value 0 exactly when the amount's magnitude is zero. -/
theorem leading_digit_matches_spec_algorithm :
    (∀ a : Amount, leading_digit a = leading_digit_spec a) ∧
    (∀ a : Amount, leading_digit a ≤ 9 ∧ (leading_digit a = 0 ↔ a.num = 0)) ∧
    leading_digit ⟨0, 0⟩ = 0 ∧ leading_digit ⟨123456, 2⟩ = 1 ∧
    leading_digit ⟨-9870, 1⟩ = 9 ∧ leading_digit ⟨56, 3⟩ = 5 := by
  refine ⟨leading_digit_eq_spec, fun a => ⟨leading_digit_le_nine a, leading_digit_eq_zero_iff a⟩,
    by decide, ?_, ?_, ?_⟩
  · simp [leading_digit, Amount.pyStr, intChars, fracChars, natChars, stripDigits]; decide
  · simp [leading_digit, Amount.pyStr, intChars, fracChars, natChars, stripDigits]; decide
  · simp [leading_digit, Amount.pyStr, intChars, fracChars, natChars, stripDigits]; decide

/-- A raw award record as produced by the data fetch (columns `Award ID`,
`Recipient Name`, `Amount` of the DataFrame handed to `run_forensics`). -/
structure RawRecord where
  award_id : String
  recipient_name : String
  amount : Amount
deriving DecidableEq

/-- An annotated record: a row of `df_master` after `run_forensics` has
added the `Anomaly_Flag` (`-1` = outlier, `1` = inlier, from
`IsolationForest.fit_predict`) and `first_digit` columns. -/
structure Row where
  award_id : String
  recipient_name : String
  amount : Amount
  anomaly_flag : Int
  first_digit : Nat
deriving DecidableEq

/-- Lines 47-60 of `aegis_final.py`.  The `IsolationForest` model is external
library code; with `random_state=42` its `fit_predict` is a deterministic
function of the amount column, modelled here as the parameter `fit_predict`
(one `Int` in `{-1, 1}` per input amount).  `pandas` raises unless the
assigned column has exactly one entry per row, so theorems assume
`(fit_predict amts).length = amts.length`; `zipWith` realises the columnwise
assignment.  The cosmetic `Display_Amount` column is not modelled (no claim
mentions it). -/
def run_forensics (fit_predict : List Amount → List Int) (df : List RawRecord) : List Row :=
  if df.isEmpty then []
  else
    let flags := fit_predict (df.map RawRecord.amount)
    List.zipWith (fun r f =>
      { award_id := r.award_id, recipient_name := r.recipient_name, amount := r.amount,
        anomaly_flag := f, first_digit := leading_digit r.amount }) df flags

/-- Lines 65-71: the placeholder row installed when the initial batch is
empty. -/
def placeholder_row : Row :=
  { award_id := "N/A", recipient_name := "WAITING FOR DATA CONNECTION...",
    amount := { num := 0, exp := 0 }, anomaly_flag := 1, first_digit := 0 }

/-- Lines 63-71: annotate the fetched batch and fall back to the placeholder
row when the result is empty. -/
def df_master (fit_predict : List Amount → List Int) (raw : List RawRecord) : List Row :=
  let df := run_forensics fit_predict raw
  if df.isEmpty then [placeholder_row] else df

/-- One entry of the `log-history` store (the live feed): time, truncated
recipient name, status text and status colour. -/
structure LogEntry where
  time : String
  name : String
  status : String
  color : String
deriving DecidableEq

/-- The outputs of one invocation of the `update_system` callback, in the
order they are returned (lines 235-332).  The two figures are represented by
their data: `benford_obs` is the observed digit-frequency series of the
Benford bar chart (digits 1-9 in order); the scatter plot adds no further
engine state. -/
structure UpdateResult where
  clock : String
  console : List LogEntry
  capital : ℚ
  capital_color : String
  anomaly_count : Nat
  benford_obs : List ℚ
  table_data : List Row
  log_history : List LogEntry
  ledger_store : List Row
deriving DecidableEq

/-- `df['Amount'].sum()` over a row list. -/
def amountSum (df : List Row) : ℚ :=
  (df.map (fun r => r.amount.val)).sum

/-- One entry of `value_counts(normalize=True)`: occurrences of `d` divided
by the total number of entries (the division yields 0 on an empty input,
matching `reindex(..., fill_value=0)` on the empty series). -/
def obsFreq (digits : List Nat) (d : Nat) : ℚ :=
  (digits.count d : ℚ) / (digits.length : ℚ)

/-- Line 294: `value_counts(normalize=True).reindex(range(1,10), fill_value=0)` —
an entry for every digit 1-9 in order, each the observed relative frequency. -/
def empirical_distribution (digits : List Nat) : List (Nat × ℚ) :=
  (List.range' 1 9).map (fun d => (d, obsFreq digits d))

/-- Line 256: the early return taken when the batch is empty or the
placeholder is installed — clock still produced, `$0.00` capital, empty
style, zero anomalies, empty figures, and the three stores emptied. -/
def noDataResult (nowTime : String) : UpdateResult :=
  { clock := nowTime ++ " UTC", console := [], capital := 0, capital_color := "",
    anomaly_count := 0, benford_obs := [], table_data := [], log_history := [],
    ledger_store := [] }

/-- Line 261: `(loops * df['Amount'].sum()) + df.iloc[:step+1]['Amount'].sum()`
with `loops = n // batch_size` and `step = n % batch_size`. -/
def inf_capital (df : List Row) (n : Nat) : ℚ :=
  ((n / df.length : Nat) : ℚ) * amountSum df + amountSum (df.take (n % df.length + 1))

/-- The `update_system` callback (lines 250-332) as a function of the batch,
the wall-clock string, the tick `n` and the two stored states.  `datetime.now`
is the caller-supplied `nowTime`. -/
def update_system (df : List Row) (nowTime : String) (n : Nat)
    (current_logs : List LogEntry) (current_ledger : List Row) : UpdateResult :=
  match df with
  | [] => noDataResult nowTime
  | r0 :: rest =>
    if r0.award_id = "N/A" then noDataResult nowTime
    else
      let batch_size := rest.length + 1
      let step := n % batch_size
      -- `df_master.iloc[step]`: `step < batch_size`, so the default is never
      -- consulted.
      let row := (r0 :: rest).getD step r0
      let existing_ids := current_ledger.map Row.award_id
      let monitored := row.anomaly_flag = -1 ∧ row.award_id ∈ existing_ids
      let status_text :=
        if monitored then "MONITORED" else if row.anomaly_flag = -1 then "FLAGGED" else "PASSED"
      let status_color :=
        if monitored then "#FFD700" else if row.anomaly_flag = -1 then "#ff4d4d" else "#00f5d4"
      let new_log : LogEntry :=
        { time := nowTime, name := row.recipient_name.take 35,
          status := status_text, color := status_color }
      let grown_logs := current_logs ++ [new_log]
      let updated_logs := if 1000 < grown_logs.length then grown_logs.drop 1 else grown_logs
      let updated_ledger :=
        if row.anomaly_flag = -1 ∧ row.award_id ∉ existing_ids
        then current_ledger ++ [row] else current_ledger
      let df_vis := (r0 :: rest).take (step + 1)
      { clock := nowTime ++ " UTC",
        console := updated_logs,
        capital := inf_capital (r0 :: rest) n,
        capital_color := status_color,
        anomaly_count := updated_ledger.length,
        benford_obs := (empirical_distribution (df_vis.map Row.first_digit)).map Prod.snd,
        table_data := updated_ledger,
        log_history := updated_logs,
        ledger_store := updated_ledger }

/-- One cooperative tick: feed the stored state through `update_system` and
keep the two store outputs, as the Dash `State`/`Output` wiring does. -/
def tickStep (df : List Row) (st : List LogEntry × List Row) (inp : String × Nat) :
    List LogEntry × List Row :=
  let r := update_system df inp.1 inp.2 st.1 st.2
  (r.log_history, r.ledger_store)

/-- A run of the engine: both stores start empty (`data=[]` in the layout)
and each tick rewrites them. -/
def runTicks (df : List Row) (inputs : List (String × Nat)) : List LogEntry × List Row :=
  inputs.foldl (tickStep df) ([], [])

lemma update_system_capital_eq (r0 : Row) (rest : List Row) (nowTime : String)
    (n : Nat) (logs : List LogEntry) (ledger : List Row) (hna : r0.award_id ≠ "N/A") :
    (update_system (r0 :: rest) nowTime n logs ledger).capital = inf_capital (r0 :: rest) n := by
  simp only [update_system, if_neg hna]

/-- C8: annotating an empty batch returns an empty annotated batch without
raising, and a tick against an empty batch short-circuits before the cursor
arithmetic and record indexing, returning the no-data steady state: the clock
string is still produced, capital is zero, the anomaly count is zero, and the
feed, table and ledger outputs are all empty. -/
theorem empty_batch_steady_state :
    (∀ fit_predict, run_forensics fit_predict [] = []) ∧
    (∀ nowTime n current_logs current_ledger,
      update_system [] nowTime n current_logs current_ledger = noDataResult nowTime) ∧
    (∀ nowTime, (noDataResult nowTime).clock = nowTime ++ " UTC" ∧
      (noDataResult nowTime).capital = 0 ∧ (noDataResult nowTime).anomaly_count = 0 ∧
      (noDataResult nowTime).console = [] ∧ (noDataResult nowTime).table_data = [] ∧
      (noDataResult nowTime).ledger_store = [] ∧ (noDataResult nowTime).log_history = []) := by
  exact ⟨fun _ => rfl, fun _ _ _ _ => rfl, fun _ => ⟨rfl, rfl, rfl, rfl, rfl, rfl, rfl⟩⟩

/-- C3: for every tick and every non-empty (non-placeholder) batch, the
capital output of the tick handler is
`(n / batch_size) * (sum of all amounts) + (sum of the amounts at indices
0 through n % batch_size, inclusive)`. -/
theorem update_system_capital_formula (r0 : Row) (rest : List Row) (nowTime : String)
    (n : Nat) (logs : List LogEntry) (ledger : List Row) (hna : r0.award_id ≠ "N/A") :
    (update_system (r0 :: rest) nowTime n logs ledger).capital =
      ((n / (r0 :: rest).length : Nat) : ℚ) * amountSum (r0 :: rest) +
        amountSum ((r0 :: rest).take (n % (r0 :: rest).length + 1)) := by
  rw [update_system_capital_eq r0 rest nowTime n logs ledger hna]
  rfl

/-- Witness for C3 at a concrete batch and tick. -/
theorem update_system_capital_formula_witness :
    (update_system [⟨"W91-A", "ACME", ⟨2500, 2⟩, 1, 2⟩] "00:00:00" 7 [] []).capital =
      ((7 / 1 : Nat) : ℚ) * amountSum [⟨"W91-A", "ACME", ⟨2500, 2⟩, 1, 2⟩] +
        amountSum ([(⟨"W91-A", "ACME", ⟨2500, 2⟩, 1, 2⟩ : Row)].take (7 % 1 + 1)) :=
  update_system_capital_formula ⟨"W91-A", "ACME", ⟨2500, 2⟩, 1, 2⟩ [] "00:00:00" 7 [] []
    (by decide)

/-- C10: when the fetch-and-annotate step yields an empty batch, the engine
installs the single `N/A` placeholder row (amount 0), and the tick handler
treats any batch whose first award id is `N/A` exactly like an empty batch:
the no-data outputs, with nothing ever reaching the ledger or the feed log. -/
theorem placeholder_no_data_path :
    (∀ fit_predict raw, run_forensics fit_predict raw = [] →
        df_master fit_predict raw = [placeholder_row]) ∧
    placeholder_row.award_id = "N/A" ∧ placeholder_row.amount.val = 0 ∧
    (∀ (r0 : Row) (rest : List Row) nowTime n logs ledger, r0.award_id = "N/A" →
        update_system (r0 :: rest) nowTime n logs ledger = noDataResult nowTime) ∧
    (∀ nowTime, (noDataResult nowTime).ledger_store = [] ∧
      (noDataResult nowTime).log_history = [] ∧ (noDataResult nowTime).console = [] ∧
      (noDataResult nowTime).capital = 0 ∧ (noDataResult nowTime).anomaly_count = 0) := by
  refine ⟨?_, rfl, by norm_num [placeholder_row, Amount.val], ?_,
    fun _ => ⟨rfl, rfl, rfl, rfl, rfl⟩⟩
  · intro fp raw h
    simp [df_master, h]
  · intro r0 rest nowTime n logs ledger hna
    simp only [update_system, if_pos hna]

lemma zipWith_getD {α β γ : Type} (f : α → β → γ) :
    ∀ (l1 : List α) (l2 : List β) (i : Nat) (d1 : α) (d2 : β) (d3 : γ),
      i < l1.length → i < l2.length →
      (List.zipWith f l1 l2).getD i d3 = f (l1.getD i d1) (l2.getD i d2) := by
  intro l1
  induction l1 with
  | nil => intro l2 i d1 d2 d3 h1 _; exact absurd h1 (by simp)
  | cons a t ih =>
      intro l2 i d1 d2 d3 h1 h2
      cases l2 with
      | nil => exact absurd h2 (by simp)
      | cons b t2 =>
          cases i with
          | zero => rfl
          | succ j =>
              simp only [List.zipWith_cons_cons, List.getD_cons_succ]
              exact ih t2 j d1 d2 d3 (by simpa using h1) (by simpa using h2)

/-- C2: on a non-empty raw batch (with the model returning one flag per row,
as `pandas` column assignment requires), `run_forensics` produces exactly one
annotated record per input record, whose `first_digit` is the leading digit
of that record's amount (hence in `{0..9}`) and whose `Anomaly_Flag` is that
record's model output; and two runs on the same batch with the same model
function (same fixed seed) produce identical output. -/
theorem run_forensics_total_and_deterministic
    (fit_predict : List Amount → List Int) (df : List RawRecord)
    (hne : df ≠ [])
    (hlen : (fit_predict (df.map RawRecord.amount)).length = df.length) :
    (run_forensics fit_predict df).length = df.length ∧
    (∀ i, i < df.length →
      ((run_forensics fit_predict df).getD i placeholder_row).first_digit
          = leading_digit ((df.getD i ⟨"", "", ⟨0, 0⟩⟩).amount) ∧
      ((run_forensics fit_predict df).getD i placeholder_row).first_digit ≤ 9 ∧
      ((run_forensics fit_predict df).getD i placeholder_row).anomaly_flag
          = (fit_predict (df.map RawRecord.amount)).getD i 0 ∧
      ((run_forensics fit_predict df).getD i placeholder_row).award_id
          = (df.getD i ⟨"", "", ⟨0, 0⟩⟩).award_id) ∧
    (∀ (fit_predict' : List Amount → List Int) (df' : List RawRecord),
      fit_predict' = fit_predict → df' = df →
      run_forensics fit_predict' df' = run_forensics fit_predict df) := by
  have hrw : run_forensics fit_predict df =
      List.zipWith (fun r f =>
        ({ award_id := r.award_id, recipient_name := r.recipient_name, amount := r.amount,
           anomaly_flag := f, first_digit := leading_digit r.amount } : Row))
        df (fit_predict (df.map RawRecord.amount)) := by
    unfold run_forensics
    rw [if_neg (by simpa using hne)]
  refine ⟨?_, ?_, fun _ _ h1 h2 => by rw [h1, h2]⟩
  · rw [hrw, List.length_zipWith, hlen, Nat.min_self]
  · intro i hi
    have hi2 : i < (fit_predict (df.map RawRecord.amount)).length := by rw [hlen]; exact hi
    rw [hrw, zipWith_getD _ df _ i ⟨"", "", ⟨0, 0⟩⟩ 0 placeholder_row hi hi2]
    exact ⟨rfl, leading_digit_le_nine _, rfl, rfl⟩

/-- Witness for C2 at a concrete one-row batch and a constant model. -/
theorem run_forensics_total_and_deterministic_witness :
    (run_forensics (fun l => l.map (fun _ => (1 : Int))) [⟨"W91-B", "ACME", ⟨42, 0⟩⟩]).length
      = [(⟨"W91-B", "ACME", ⟨42, 0⟩⟩ : RawRecord)].length :=
  (run_forensics_total_and_deterministic (fun l => l.map (fun _ => (1 : Int)))
    [⟨"W91-B", "ACME", ⟨42, 0⟩⟩] (by decide) (by rfl)).1

/-- A concrete annotated batch of 10 rows, each of amount 1, no outliers. -/
def c4Batch : List Row :=
  [⟨"A0", "R", ⟨1, 0⟩, 1, 1⟩, ⟨"A1", "R", ⟨1, 0⟩, 1, 1⟩, ⟨"A2", "R", ⟨1, 0⟩, 1, 1⟩,
   ⟨"A3", "R", ⟨1, 0⟩, 1, 1⟩, ⟨"A4", "R", ⟨1, 0⟩, 1, 1⟩, ⟨"A5", "R", ⟨1, 0⟩, 1, 1⟩,
   ⟨"A6", "R", ⟨1, 0⟩, 1, 1⟩, ⟨"A7", "R", ⟨1, 0⟩, 1, 1⟩, ⟨"A8", "R", ⟨1, 0⟩, 1, 1⟩,
   ⟨"A9", "R", ⟨1, 0⟩, 1, 1⟩]

/-- C4 as stated is false: with `batch_size = 10` and unit amounts, the
capital at tick 10 is `S + amount[0] = 11`, not
`capital(9) + amount[0] + S = 10 + 1 + 10 = 21`; the extra "plus the full
batch sum" double-counts the batch. -/
theorem cursor_tick10_claim_counterexample :
    ¬ ((update_system c4Batch "00:00:00" 10 [] []).capital =
        (update_system c4Batch "00:00:00" 9 [] []).capital
          + (c4Batch.getD 0 placeholder_row).amount.val + amountSum c4Batch) := by
  have hne : ¬ (("A0" : String) = "N/A") := by decide
  norm_num [update_system, c4Batch, inf_capital, amountSum, Amount.val, placeholder_row,
    noDataResult, hne]

/-- C4 amended: with `batch_size = 10`, tick 9 is `(cycle=0, position=9)` and
tick 10 is `(cycle=1, position=0)`, and the capital at tick 10 equals the
capital at tick 9 plus `amount[0]` (not additionally the full batch sum). -/
theorem cursor_tick9_tick10_amended (r0 : Row) (rest : List Row) (nowTime : String)
    (logs : List LogEntry) (ledger : List Row)
    (hlen : (r0 :: rest).length = 10) (hna : r0.award_id ≠ "N/A") :
    (update_system (r0 :: rest) nowTime 9 logs ledger).capital =
        ((9 / 10 : Nat) : ℚ) * amountSum (r0 :: rest) +
          amountSum ((r0 :: rest).take (9 % 10 + 1)) ∧
    (update_system (r0 :: rest) nowTime 10 logs ledger).capital =
        ((10 / 10 : Nat) : ℚ) * amountSum (r0 :: rest) +
          amountSum ((r0 :: rest).take (10 % 10 + 1)) ∧
    (update_system (r0 :: rest) nowTime 10 logs ledger).capital =
      (update_system (r0 :: rest) nowTime 9 logs ledger).capital + r0.amount.val := by
  have h9 := update_system_capital_formula r0 rest nowTime 9 logs ledger hna
  have h10 := update_system_capital_formula r0 rest nowTime 10 logs ledger hna
  rw [hlen] at h9 h10
  refine ⟨h9, h10, ?_⟩
  rw [h9, h10]
  have htake10 : (r0 :: rest).take (9 % 10 + 1) = r0 :: rest :=
    List.take_of_length_le (by rw [hlen])
  have htake1 : (r0 :: rest).take (10 % 10 + 1) = [r0] := rfl
  rw [htake10, htake1]
  show ((10 / 10 : Nat) : ℚ) * amountSum (r0 :: rest) + amountSum [r0] =
    ((9 / 10 : Nat) : ℚ) * amountSum (r0 :: rest) + amountSum (r0 :: rest) + r0.amount.val
  norm_num [amountSum]

/-- Witness for the amended C4 at the concrete unit batch. -/
theorem cursor_tick9_tick10_amended_witness :
    (update_system c4Batch "00:00:00" 10 [] []).capital =
      (update_system c4Batch "00:00:00" 9 [] []).capital +
        (⟨"A0", "R", ⟨1, 0⟩, 1, 1⟩ : Row).amount.val :=
  (cursor_tick9_tick10_amended ⟨"A0", "R", ⟨1, 0⟩, 1, 1⟩ (c4Batch.drop 1) "00:00:00" [] []
    (by decide) (by decide)).2.2

lemma list_sum_div (l : List ℚ) (c : ℚ) : (l.map (fun x => x / c)).sum = l.sum / c := by
  induction l with
  | nil => simp
  | cons x t ih => simp [ih, add_div]

/-- Summing the per-digit occurrence counts over the domain 1-9 counts
exactly the nonzero entries, provided every entry is a digit (`≤ 9`). -/
lemma sum_counts_eq_countP (digits : List Nat) (h9 : ∀ x ∈ digits, x ≤ 9) :
    ((List.range' 1 9).map (fun d => digits.count d)).sum
      = digits.countP (fun x => decide (x ≠ 0)) := by
  induction digits with
  | nil => rfl
  | cons x t ih =>
      have hx : x ≤ 9 := h9 x (List.mem_cons_self x t)
      have ht := ih (fun y hy => h9 y (List.mem_cons_of_mem x hy))
      have hexp : List.range' 1 9 = [1, 2, 3, 4, 5, 6, 7, 8, 9] := rfl
      rw [hexp] at ht ⊢
      simp only [List.map_cons, List.map_nil, List.sum_cons, List.sum_nil,
        List.count_cons, List.countP_cons] at ht ⊢
      interval_cases x <;> simp_all <;> omega

/-- A concrete annotated batch containing one zero-amount record (leading
digit 0) and one unit record (leading digit 1). -/
def c5Batch : List Row :=
  [⟨"Z0", "R", ⟨0, 0⟩, 1, 0⟩, ⟨"Z1", "R", ⟨1, 0⟩, 1, 1⟩]

/-- C5 as stated is false: at tick 1 over `c5Batch` the records seen so far
are non-empty (digits `[0, 1]`), yet the nine observed frequencies sum to
`1/2`, not 1 — `value_counts(normalize=True)` divides by the total number of
records including the zero-digit ones, which `reindex(range(1,10))` then
drops. -/
theorem benford_obs_sum_counterexample :
    ¬ ((update_system c5Batch "00:00:00" 1 [] []).benford_obs.sum = 1) := by
  have hne : ¬ (("Z0" : String) = "N/A") := by decide
  have hexp : List.range' 1 9 = [1, 2, 3, 4, 5, 6, 7, 8, 9] := rfl
  norm_num [update_system, c5Batch, empirical_distribution, obsFreq, noDataResult, hne, hexp]

/-- C5 amended: the observed distribution always carries an entry for every
digit in `{1..9}` (frequency 0 when absent); it is normalized by the total
number of records seen — including digit-0 entries from zero-magnitude
amounts — so the nine frequencies sum to
`(number of nonzero-digit entries) / (total entries)`, which is 1 exactly
when the input is non-empty and free of zero digits, and 0 for empty input;
the tick handler's Benford series is this distribution over the records seen
so far in the current cycle. -/
theorem empirical_distribution_amended :
    (∀ digits : List Nat, (empirical_distribution digits).map Prod.fst = List.range' 1 9) ∧
    ((empirical_distribution ([] : List Nat)).map Prod.snd).sum = 0 ∧
    (∀ digits : List Nat, (∀ x ∈ digits, x ≤ 9) →
        ((empirical_distribution digits).map Prod.snd).sum
          = (digits.countP (fun x => decide (x ≠ 0)) : ℚ) / (digits.length : ℚ)) ∧
    (∀ digits : List Nat, digits ≠ [] → (∀ x ∈ digits, x ≤ 9) → (∀ x ∈ digits, x ≠ 0) →
        ((empirical_distribution digits).map Prod.snd).sum = 1) ∧
    (∀ (r0 : Row) (rest : List Row) nowTime n logs ledger, r0.award_id ≠ "N/A" →
        (update_system (r0 :: rest) nowTime n logs ledger).benford_obs
          = (empirical_distribution
              (((r0 :: rest).take (n % (r0 :: rest).length + 1)).map Row.first_digit)).map
              Prod.snd) := by
  have hmain : ∀ (r0 : Row) (rest : List Row) nowTime n (logs : List LogEntry)
      (ledger : List Row), r0.award_id ≠ "N/A" →
      (update_system (r0 :: rest) nowTime n logs ledger).benford_obs
        = (empirical_distribution
            (((r0 :: rest).take (n % (r0 :: rest).length + 1)).map Row.first_digit)).map
            Prod.snd := by
    intro r0 rest nowTime n logs ledger hna
    simp only [update_system, if_neg hna, List.length_cons]
  have hsum : ∀ digits : List Nat, (∀ x ∈ digits, x ≤ 9) →
      ((empirical_distribution digits).map Prod.snd).sum
        = (digits.countP (fun x => decide (x ≠ 0)) : ℚ) / (digits.length : ℚ) := by
    intro digits h9
    have h1 : ((empirical_distribution digits).map Prod.snd).sum
        = ((List.range' 1 9).map
            (fun d => (digits.count d : ℚ) / (digits.length : ℚ))).sum := by
      simp [empirical_distribution, List.map_map, obsFreq, Function.comp_def]
    rw [h1]
    have h2 : (List.range' 1 9).map (fun d => (digits.count d : ℚ) / (digits.length : ℚ))
        = ((List.range' 1 9).map (fun d => (digits.count d : ℚ))).map
            (fun x => x / (digits.length : ℚ)) := by
      rw [List.map_map]; rfl
    rw [h2, list_sum_div]
    congr 1
    have h3 : (List.range' 1 9).map (fun d => (digits.count d : ℚ))
        = ((List.range' 1 9).map (fun d => digits.count d)).map (fun k : ℕ => (k : ℚ)) := by
      rw [List.map_map]; rfl
    rw [h3, ← Nat.cast_list_sum, sum_counts_eq_countP digits h9]
  refine ⟨?_, ?_, hsum, ?_, ?_⟩
  · intro digits
    simp [empirical_distribution, List.map_map, Function.comp_def]
  · rw [hsum [] (by simp)]
    norm_num
  · intro digits hne h9 h0
    rw [hsum digits h9]
    have hcp : digits.countP (fun x => decide (x ≠ 0)) = digits.length :=
      List.countP_eq_length.mpr (fun a ha => by simpa using h0 a ha)
    rw [hcp]
    exact div_self (by
      simpa using fun h => hne (List.length_eq_zero.mp h))
  · exact hmain

/-- Witness for the amended C5 on the non-empty zero-free digit list `[1,2]`. -/
theorem empirical_distribution_amended_witness :
    ((empirical_distribution [1, 2]).map Prod.snd).sum = 1 :=
  empirical_distribution_amended.2.2.2.1 [1, 2] (by decide) (by decide) (by decide)

/-- The main-path outputs of `update_system`, with the selected row and the
derived status/feed/ledger values spelled out. -/
lemma update_system_main (r0 : Row) (rest : List Row) (nowTime : String) (n : Nat)
    (logs : List LogEntry) (ledger : List Row) (hna : r0.award_id ≠ "N/A") :
    update_system (r0 :: rest) nowTime n logs ledger =
      (let step := n % (rest.length + 1)
       let row := (r0 :: rest).getD step r0
       let monitored := row.anomaly_flag = -1 ∧ row.award_id ∈ ledger.map Row.award_id
       let status_text := if monitored then "MONITORED"
         else if row.anomaly_flag = -1 then "FLAGGED" else "PASSED"
       let status_color := if monitored then "#FFD700"
         else if row.anomaly_flag = -1 then "#ff4d4d" else "#00f5d4"
       let new_log : LogEntry := ⟨nowTime, row.recipient_name.take 35, status_text, status_color⟩
       let grown := logs ++ [new_log]
       let updated_logs := if 1000 < grown.length then grown.drop 1 else grown
       let updated_ledger := if row.anomaly_flag = -1 ∧ row.award_id ∉ ledger.map Row.award_id
         then ledger ++ [row] else ledger
       { clock := nowTime ++ " UTC", console := updated_logs,
         capital := inf_capital (r0 :: rest) n, capital_color := status_color,
         anomaly_count := updated_ledger.length,
         benford_obs := (empirical_distribution
           (((r0 :: rest).take (step + 1)).map Row.first_digit)).map Prod.snd,
         table_data := updated_ledger, log_history := updated_logs,
         ledger_store := updated_ledger }) := by
  simp only [update_system, if_neg hna]

/-- Appending the new feed entry and then evicting the oldest entry when the
1000-entry cap is hit never removes the entry just appended. -/
lemma getLast?_capped (logs : List LogEntry) (nl : LogEntry) :
    (if 1000 < (logs ++ [nl]).length then (logs ++ [nl]).drop 1 else logs ++ [nl]).getLast?
      = some nl := by
  by_cases h : 1000 < (logs ++ [nl]).length
  · rw [if_pos h]
    cases logs with
    | nil => simp at h
    | cons a t =>
        rw [List.cons_append, List.drop_succ_cons, List.drop_zero]
        exact List.getLast?_concat _
  · rw [if_neg h]
    exact List.getLast?_concat _

lemma update_ledger_store_eq (r0 : Row) (rest : List Row) (nowTime : String) (n : Nat)
    (logs : List LogEntry) (ledger : List Row) (hna : r0.award_id ≠ "N/A") :
    (update_system (r0 :: rest) nowTime n logs ledger).ledger_store =
      (if ((r0 :: rest).getD (n % (r0 :: rest).length) r0).anomaly_flag = -1 ∧
          ((r0 :: rest).getD (n % (r0 :: rest).length) r0).award_id ∉ ledger.map Row.award_id
        then ledger ++ [(r0 :: rest).getD (n % (r0 :: rest).length) r0] else ledger) := by
  rw [update_system_main r0 rest nowTime n logs ledger hna]
  rfl

lemma update_log_last_eq (r0 : Row) (rest : List Row) (nowTime : String) (n : Nat)
    (logs : List LogEntry) (ledger : List Row) (hna : r0.award_id ≠ "N/A") :
    (update_system (r0 :: rest) nowTime n logs ledger).log_history.getLast? =
      some ⟨nowTime, ((r0 :: rest).getD (n % (r0 :: rest).length) r0).recipient_name.take 35,
        (if ((r0 :: rest).getD (n % (r0 :: rest).length) r0).anomaly_flag = -1 ∧
            ((r0 :: rest).getD (n % (r0 :: rest).length) r0).award_id ∈ ledger.map Row.award_id
          then "MONITORED"
          else if ((r0 :: rest).getD (n % (r0 :: rest).length) r0).anomaly_flag = -1
          then "FLAGGED" else "PASSED"),
        (if ((r0 :: rest).getD (n % (r0 :: rest).length) r0).anomaly_flag = -1 ∧
            ((r0 :: rest).getD (n % (r0 :: rest).length) r0).award_id ∈ ledger.map Row.award_id
          then "#FFD700"
          else if ((r0 :: rest).getD (n % (r0 :: rest).length) r0).anomaly_flag = -1
          then "#ff4d4d" else "#00f5d4")⟩ := by
  rw [update_system_main r0 rest nowTime n logs ledger hna]
  exact getLast?_capped logs _

/-- C6: per observed transaction — not an outlier: status `PASSED` and the
ledger untouched; an outlier with a fresh id: inserted, status `FLAGGED`; an
outlier whose id is already present: status `MONITORED`, not re-inserted.
Observing the same flagged row twice (one full cycle apart) produces
`FLAGGED` then `MONITORED` and leaves the ledger count at 1. -/
theorem ledger_observe_statuses (r0 : Row) (rest : List Row) (nowTime : String) (n : Nat)
    (logs : List LogEntry) (ledger : List Row) (hna : r0.award_id ≠ "N/A") :
    (let st := update_system (r0 :: rest) nowTime n logs ledger
     let row := (r0 :: rest).getD (n % (r0 :: rest).length) r0
     (row.anomaly_flag ≠ -1 →
        st.ledger_store = ledger ∧
        st.log_history.getLast?
          = some ⟨nowTime, row.recipient_name.take 35, "PASSED", "#00f5d4"⟩) ∧
     (row.anomaly_flag = -1 → row.award_id ∉ ledger.map Row.award_id →
        st.ledger_store = ledger ++ [row] ∧
        st.log_history.getLast?
          = some ⟨nowTime, row.recipient_name.take 35, "FLAGGED", "#ff4d4d"⟩) ∧
     (row.anomaly_flag = -1 → row.award_id ∈ ledger.map Row.award_id →
        st.ledger_store = ledger ∧
        st.log_history.getLast?
          = some ⟨nowTime, row.recipient_name.take 35, "MONITORED", "#FFD700"⟩)) ∧
    (((r0 :: rest).getD (n % (r0 :: rest).length) r0).anomaly_flag = -1 →
       let st1 := update_system (r0 :: rest) nowTime n logs []
       let row := (r0 :: rest).getD (n % (r0 :: rest).length) r0
       st1.ledger_store = [row] ∧ st1.anomaly_count = 1 ∧
       st1.log_history.getLast?
         = some ⟨nowTime, row.recipient_name.take 35, "FLAGGED", "#ff4d4d"⟩ ∧
       (let st2 := update_system (r0 :: rest) nowTime (n + (r0 :: rest).length) logs
            st1.ledger_store
        st2.ledger_store = [row] ∧ st2.anomaly_count = 1 ∧
        st2.log_history.getLast?
          = some ⟨nowTime, row.recipient_name.take 35, "MONITORED", "#FFD700"⟩)) := by
  have hcount : ∀ (ledger' : List Row) (m : Nat),
      (update_system (r0 :: rest) nowTime m logs ledger').anomaly_count
        = (update_system (r0 :: rest) nowTime m logs ledger').ledger_store.length := by
    intro ledger' m
    rw [update_system_main r0 rest nowTime m logs ledger' hna]
  have hcases : ∀ (ledger' : List Row) (m : Nat),
      ((((r0 :: rest).getD (m % (r0 :: rest).length) r0).anomaly_flag ≠ -1 →
        (update_system (r0 :: rest) nowTime m logs ledger').ledger_store = ledger' ∧
        (update_system (r0 :: rest) nowTime m logs ledger').log_history.getLast?
          = some ⟨nowTime,
              ((r0 :: rest).getD (m % (r0 :: rest).length) r0).recipient_name.take 35,
              "PASSED", "#00f5d4"⟩) ∧
      (((r0 :: rest).getD (m % (r0 :: rest).length) r0).anomaly_flag = -1 →
        ((r0 :: rest).getD (m % (r0 :: rest).length) r0).award_id ∉ ledger'.map Row.award_id →
        (update_system (r0 :: rest) nowTime m logs ledger').ledger_store
          = ledger' ++ [(r0 :: rest).getD (m % (r0 :: rest).length) r0] ∧
        (update_system (r0 :: rest) nowTime m logs ledger').log_history.getLast?
          = some ⟨nowTime,
              ((r0 :: rest).getD (m % (r0 :: rest).length) r0).recipient_name.take 35,
              "FLAGGED", "#ff4d4d"⟩) ∧
      (((r0 :: rest).getD (m % (r0 :: rest).length) r0).anomaly_flag = -1 →
        ((r0 :: rest).getD (m % (r0 :: rest).length) r0).award_id ∈ ledger'.map Row.award_id →
        (update_system (r0 :: rest) nowTime m logs ledger').ledger_store = ledger' ∧
        (update_system (r0 :: rest) nowTime m logs ledger').log_history.getLast?
          = some ⟨nowTime,
              ((r0 :: rest).getD (m % (r0 :: rest).length) r0).recipient_name.take 35,
              "MONITORED", "#FFD700"⟩)) := by
    intro ledger' m
    have hled := update_ledger_store_eq r0 rest nowTime m logs ledger' hna
    have hlog := update_log_last_eq r0 rest nowTime m logs ledger' hna
    refine ⟨?_, ?_, ?_⟩
    · intro hflag
      have hmon : ¬ (((r0 :: rest).getD (m % (r0 :: rest).length) r0).anomaly_flag = -1 ∧
          ((r0 :: rest).getD (m % (r0 :: rest).length) r0).award_id ∈
            ledger'.map Row.award_id) := fun h => hflag h.1
      have hins : ¬ (((r0 :: rest).getD (m % (r0 :: rest).length) r0).anomaly_flag = -1 ∧
          ((r0 :: rest).getD (m % (r0 :: rest).length) r0).award_id ∉
            ledger'.map Row.award_id) := fun h => hflag h.1
      rw [if_neg hmon, if_neg hflag, if_neg hmon, if_neg hflag] at hlog
      rw [if_neg hins] at hled
      exact ⟨hled, hlog⟩
    · intro hflag hmem
      have hmon : ¬ (((r0 :: rest).getD (m % (r0 :: rest).length) r0).anomaly_flag = -1 ∧
          ((r0 :: rest).getD (m % (r0 :: rest).length) r0).award_id ∈
            ledger'.map Row.award_id) := fun h => hmem h.2
      rw [if_neg hmon, if_pos hflag, if_neg hmon, if_pos hflag] at hlog
      rw [if_pos ⟨hflag, hmem⟩] at hled
      exact ⟨hled, hlog⟩
    · intro hflag hmem
      rw [if_pos ⟨hflag, hmem⟩, if_pos ⟨hflag, hmem⟩] at hlog
      rw [if_neg (fun h => h.2 hmem)] at hled
      exact ⟨hled, hlog⟩
  refine ⟨hcases ledger n, ?_⟩
  intro hflag
  have hnotmem : ((r0 :: rest).getD (n % (r0 :: rest).length) r0).award_id ∉
      (([] : List Row)).map Row.award_id := by simp
  obtain ⟨hled1, hlog1⟩ := (hcases [] n).2.1 hflag hnotmem
  have hled1' : (update_system (r0 :: rest) nowTime n logs []).ledger_store
      = [(r0 :: rest).getD (n % (r0 :: rest).length) r0] := by simpa using hled1
  have hcnt1 : (update_system (r0 :: rest) nowTime n logs []).anomaly_count = 1 := by
    rw [hcount [] n, hled1']
    rfl
  have hmod : (n + (r0 :: rest).length) % (r0 :: rest).length = n % (r0 :: rest).length :=
    Nat.add_mod_right n _
  have hflag2 : ((r0 :: rest).getD ((n + (r0 :: rest).length) % (r0 :: rest).length) r0).anomaly_flag
      = -1 := by rw [hmod]; exact hflag
  have hmem2 : ((r0 :: rest).getD ((n + (r0 :: rest).length) % (r0 :: rest).length) r0).award_id
      ∈ ((update_system (r0 :: rest) nowTime n logs []).ledger_store).map Row.award_id := by
    rw [hmod, hled1']
    simp
  obtain ⟨hled2, hlog2⟩ :=
    (hcases ((update_system (r0 :: rest) nowTime n logs []).ledger_store)
      (n + (r0 :: rest).length)).2.2 hflag2 hmem2
  have hcnt2 : (update_system (r0 :: rest) nowTime (n + (r0 :: rest).length) logs
      ((update_system (r0 :: rest) nowTime n logs []).ledger_store)).anomaly_count = 1 := by
    rw [hcount, hled2, hled1']
    rfl
  refine ⟨hled1', hcnt1, hlog1, ?_, hcnt2, ?_⟩
  · rw [hled2, hled1']
  · rw [hlog2, hmod]

/-- A concrete flagged row. -/
def c6Row : Row := ⟨"F0", "EVIL CORP", ⟨999, 0⟩, -1, 9⟩

/-- Witness for C6: the flagged row is inserted once at the first
observation and not re-inserted one cycle later. -/
theorem ledger_observe_statuses_witness :
    (update_system [c6Row] "00:00:00" 0 [] []).anomaly_count = 1 ∧
    (update_system [c6Row] "00:00:00" (0 + ([c6Row] : List Row).length) []
        (update_system [c6Row] "00:00:00" 0 [] []).ledger_store).anomaly_count = 1 := by
  have h := (ledger_observe_statuses c6Row [] "00:00:00" 0 [] [] (by decide)).2 (by decide)
  exact ⟨h.2.1, h.2.2.2.2.1⟩

/-- Whether the batch triggers the no-data early return of the callback
(line 255): empty, or headed by the placeholder id. -/
def noDataBatch (df : List Row) : Prop :=
  match df with
  | [] => True
  | r0 :: _ => r0.award_id = "N/A"

/-- One tick preserves the ledger invariant: distinct ids, and an empty
ledger forever when the batch is the no-data one. -/
lemma tickStep_preserves_inv (df : List Row) (st : List LogEntry × List Row)
    (inp : String × Nat)
    (h : (st.2.map Row.award_id).Nodup ∧ (noDataBatch df → st.2 = [])) :
    (((tickStep df st inp).2.map Row.award_id).Nodup ∧
      (noDataBatch df → (tickStep df st inp).2 = [])) := by
  cases df with
  | nil => exact ⟨by simp [tickStep, update_system, noDataResult], fun _ => rfl⟩
  | cons r0 rest =>
      by_cases hna : r0.award_id = "N/A"
      · constructor
        · simp [tickStep, update_system, hna, noDataResult]
        · intro _
          simp [tickStep, update_system, hna, noDataResult]
      · have hled := update_ledger_store_eq r0 rest inp.1 inp.2 st.1 st.2 hna
        have hstep : (tickStep (r0 :: rest) st inp).2
            = (update_system (r0 :: rest) inp.1 inp.2 st.1 st.2).ledger_store := rfl
        constructor
        · rw [hstep, hled]
          by_cases hc : ((r0 :: rest).getD (inp.2 % (r0 :: rest).length) r0).anomaly_flag = -1 ∧
              ((r0 :: rest).getD (inp.2 % (r0 :: rest).length) r0).award_id ∉
                st.2.map Row.award_id
          · rw [if_pos hc, List.map_append]
            rw [List.nodup_append]
            refine ⟨h.1, by simp, ?_⟩
            intro x hx
            simp only [List.map_cons, List.map_nil, List.mem_singleton]
            intro hx'
            exact hc.2 (by rwa [hx'] at hx)
          · rw [if_neg hc]
            exact h.1
        · intro hnd
          exact absurd hnd hna

/-- All states reachable from the empty stores satisfy the ledger
invariant. -/
lemma runTicks_inv (df : List Row) (inputs : List (String × Nat)) :
    (((runTicks df inputs).2.map Row.award_id).Nodup ∧
      (noDataBatch df → (runTicks df inputs).2 = [])) := by
  have hgen : ∀ (l : List (String × Nat)) (st : List LogEntry × List Row),
      ((st.2.map Row.award_id).Nodup ∧ (noDataBatch df → st.2 = [])) →
      (((l.foldl (tickStep df) st).2.map Row.award_id).Nodup ∧
        (noDataBatch df → (l.foldl (tickStep df) st).2 = [])) := by
    intro l
    induction l with
    | nil => exact fun st h => h
    | cons i t ih =>
        intro st h
        exact ih _ (tickStep_preserves_inv df st i h)
  exact hgen inputs ([], []) ⟨by simp, fun _ => rfl⟩

/-- C7: in every state reachable by any sequence of ticks from the empty
ledger the entry ids are pairwise distinct (so each anomalous transaction is
recorded at most once no matter how often the cycle revisits it), and any
further tick only appends — at most one entry, and only a flagged row whose
id is not yet present — preserving insertion order. -/
theorem ledger_reachable_invariants (df : List Row) (inputs : List (String × Nat))
    (nowTime : String) (n : Nat) :
    ((runTicks df inputs).2.map Row.award_id).Nodup ∧
    (∀ i, ((runTicks df inputs).2.map Row.award_id).count i ≤ 1) ∧
    (∃ t, (tickStep df (runTicks df inputs) (nowTime, n)).2 = (runTicks df inputs).2 ++ t ∧
       t.length ≤ 1 ∧
       ∀ r ∈ t, r.anomaly_flag = -1 ∧
         r.award_id ∉ (runTicks df inputs).2.map Row.award_id) := by
  obtain ⟨hnd, hempty⟩ := runTicks_inv df inputs
  refine ⟨hnd, fun i => List.nodup_iff_count_le_one.mp hnd i, ?_⟩
  cases df with
  | nil =>
      refine ⟨[], ?_, by simp, by simp⟩
      rw [List.append_nil, hempty trivial]
      rfl
  | cons r0 rest =>
      by_cases hna : r0.award_id = "N/A"
      · refine ⟨[], ?_, by simp, by simp⟩
        rw [List.append_nil, hempty hna]
        show (update_system (r0 :: rest) nowTime n (runTicks (r0 :: rest) inputs).1
          (runTicks (r0 :: rest) inputs).2).ledger_store = []
        simp [update_system, hna, noDataResult]
      · have hled := update_ledger_store_eq r0 rest nowTime n (runTicks (r0 :: rest) inputs).1
          (runTicks (r0 :: rest) inputs).2 hna
        have hstep : (tickStep (r0 :: rest) (runTicks (r0 :: rest) inputs) (nowTime, n)).2
            = (update_system (r0 :: rest) nowTime n (runTicks (r0 :: rest) inputs).1
                (runTicks (r0 :: rest) inputs).2).ledger_store := rfl
        by_cases hc : ((r0 :: rest).getD (n % (r0 :: rest).length) r0).anomaly_flag = -1 ∧
            ((r0 :: rest).getD (n % (r0 :: rest).length) r0).award_id ∉
              ((runTicks (r0 :: rest) inputs).2).map Row.award_id
        · refine ⟨[(r0 :: rest).getD (n % (r0 :: rest).length) r0], ?_, by simp, ?_⟩
          · rw [hstep, hled, if_pos hc]
          · intro r hr
            rw [List.mem_singleton] at hr
            subst hr
            exact ⟨hc.1, hc.2⟩
        · refine ⟨[], ?_, by simp, by simp⟩
          rw [List.append_nil, hstep, hled, if_neg hc]

/-- Witness for C7 on a two-tick run over the concrete flagged batch. -/
theorem ledger_reachable_invariants_witness :
    ((runTicks [c6Row] [("00:00:00", 0), ("00:00:01", 1)]).2.map Row.award_id).Nodup :=
  (ledger_reachable_invariants [c6Row] [("00:00:00", 0), ("00:00:01", 1)] "00:00:02" 2).1

lemma amountSum_take_succ (df : List Row) (k : Nat) (d : Row) (hk : k < df.length) :
    amountSum (df.take (k + 1)) = amountSum (df.take k) + (df.getD k d).amount.val := by
  rw [List.take_succ]
  have h1 : df[k]? = some (df.getD k d) := by
    rw [List.getElem?_eq_getElem hk, List.getD_eq_getElem?_getD, List.getElem?_eq_getElem hk]
    rfl
  rw [h1]
  simp [amountSum]

/-- Advancing the cursor by one tick adds exactly the amount at the new
position. -/
lemma inf_capital_succ (r0 : Row) (rest : List Row) (n : Nat) :
    inf_capital (r0 :: rest) (n + 1)
      = inf_capital (r0 :: rest) n
        + ((r0 :: rest).getD ((n + 1) % (r0 :: rest).length) r0).amount.val := by
  have hL : 0 < (r0 :: rest).length := Nat.succ_pos _
  obtain ⟨q, r, hr, rfl⟩ :
      ∃ q r, r < (r0 :: rest).length ∧ n = (r0 :: rest).length * q + r :=
    ⟨n / (r0 :: rest).length, n % (r0 :: rest).length, Nat.mod_lt n hL,
      (Nat.div_add_mod n (r0 :: rest).length).symm⟩
  have hmod : ((r0 :: rest).length * q + r) % (r0 :: rest).length = r := by
    rw [Nat.mul_add_mod]
    exact Nat.mod_eq_of_lt hr
  have hdiv : ((r0 :: rest).length * q + r) / (r0 :: rest).length = q := by
    rw [Nat.mul_add_div hL, Nat.div_eq_of_lt hr, Nat.add_zero]
  by_cases hend : r + 1 = (r0 :: rest).length
  · have he : (r0 :: rest).length * q + r + 1 = (r0 :: rest).length * (q + 1) := by
      rw [Nat.mul_succ, Nat.add_assoc, hend]
    have hmod1 : ((r0 :: rest).length * q + r + 1) % (r0 :: rest).length = 0 := by
      rw [he, Nat.mul_mod_right]
    have hdiv1 : ((r0 :: rest).length * q + r + 1) / (r0 :: rest).length = q + 1 := by
      rw [he, Nat.mul_div_cancel_left _ hL]
    unfold inf_capital
    rw [hmod, hdiv, hmod1, hdiv1]
    have htakeL : (r0 :: rest).take (r + 1) = r0 :: rest := by
      rw [hend]
      exact List.take_length _
    have htake1 : (r0 :: rest).take (0 + 1) = [r0] := rfl
    have hgd : (r0 :: rest).getD 0 r0 = r0 := rfl
    rw [htakeL, htake1, hgd]
    have hs : amountSum [r0] = r0.amount.val := by simp [amountSum]
    rw [hs]
    push_cast
    ring
  · have hlt : r + 1 < (r0 :: rest).length := by omega
    have he : (r0 :: rest).length * q + r + 1 = (r0 :: rest).length * q + (r + 1) :=
      Nat.add_assoc _ _ _
    have hmod1 : ((r0 :: rest).length * q + r + 1) % (r0 :: rest).length = r + 1 := by
      rw [he, Nat.mul_add_mod]
      exact Nat.mod_eq_of_lt hlt
    have hdiv1 : ((r0 :: rest).length * q + r + 1) / (r0 :: rest).length = q := by
      rw [he, Nat.mul_add_div hL, Nat.div_eq_of_lt hlt, Nat.add_zero]
    unfold inf_capital
    rw [hmod, hdiv, hmod1, hdiv1, amountSum_take_succ (r0 :: rest) (r + 1) r0 hlt]
    ring

/-- C9: over a fixed non-empty (non-placeholder) batch whose amounts are all
non-negative, the capital output is monotone in the tick: `tick1 < tick2`
implies `capital(tick1) ≤ capital(tick2)`.  Non-negativity is a hypothesis;
nothing is claimed for batches with negative amounts. -/
theorem capital_monotone_of_nonneg (r0 : Row) (rest : List Row) (nowTime : String)
    (logs : List LogEntry) (ledger : List Row) (t1 t2 : Nat)
    (hna : r0.award_id ≠ "N/A") (hpos : ∀ r ∈ r0 :: rest, 0 ≤ r.amount.val)
    (hlt : t1 < t2) :
    (update_system (r0 :: rest) nowTime t1 logs ledger).capital
      ≤ (update_system (r0 :: rest) nowTime t2 logs ledger).capital := by
  rw [update_system_capital_eq r0 rest nowTime t1 logs ledger hna,
      update_system_capital_eq r0 rest nowTime t2 logs ledger hna]
  have key : ∀ m, inf_capital (r0 :: rest) m ≤ inf_capital (r0 :: rest) (m + 1) := by
    intro m
    rw [inf_capital_succ r0 rest m]
    have hidx : (m + 1) % (r0 :: rest).length < (r0 :: rest).length :=
      Nat.mod_lt _ (by simp)
    have hmem : (r0 :: rest).getD ((m + 1) % (r0 :: rest).length) r0 ∈ r0 :: rest := by
      rw [List.getD_eq_getElem _ _ hidx]
      exact List.getElem_mem hidx
    have := hpos _ hmem
    linarith
  have mono : ∀ b, t1 ≤ b → inf_capital (r0 :: rest) t1 ≤ inf_capital (r0 :: rest) b := by
    intro b
    induction b with
    | zero =>
        intro h
        rw [Nat.le_zero.mp h]
    | succ k ih =>
        intro h
        rcases Nat.lt_or_ge t1 (k + 1) with hl | hg
        · exact le_trans (ih (Nat.lt_succ_iff.mp hl)) (key k)
        · rw [le_antisymm h hg]
  exact mono t2 (le_of_lt hlt)

/-- Witness for C9 over the concrete unit batch. -/
theorem capital_monotone_of_nonneg_witness :
    (update_system c4Batch "00:00:00" 3 [] []).capital
      ≤ (update_system c4Batch "00:00:00" 7 [] []).capital :=
  capital_monotone_of_nonneg ⟨"A0", "R", ⟨1, 0⟩, 1, 1⟩ (c4Batch.drop 1) "00:00:00" [] [] 3 7
    (by decide)
    (by
      intro r hr
      simp only [c4Batch, List.drop_succ_cons, List.drop_zero, List.mem_cons,
        List.mem_singleton, List.not_mem_nil, or_false] at hr
      rcases hr with h | h | h | h | h | h | h | h | h | h <;> rw [h] <;>
        norm_num [Amount.val])
    (by decide)

/-- Witness for C10 at the placeholder batch itself. -/
theorem placeholder_no_data_path_witness :
    df_master (fun l => l.map (fun _ => (1 : Int))) [] = [placeholder_row] ∧
    update_system [placeholder_row] "00:00:00" 5 [] [] = noDataResult "00:00:00" :=
  ⟨placeholder_no_data_path.1 (fun l => l.map (fun _ => (1 : Int))) [] rfl,
   placeholder_no_data_path.2.2.2.1 placeholder_row [] "00:00:00" 5 [] [] rfl⟩

end Aegis
